import Mathlib

/-!
Verification of the CBZ-to-webtoon-strip conversion pipeline (main.go of
go-cbz-to-png) against its specification.

The shallow embedding follows the source:
  * an archive entry is a name plus the bytes reading it yields (`none`
    models `file.Open`/`io.ReadAll` returning an error for that entry);
  * the three library image decoders (jpeg.Decode, png.Decode, webp.Decode)
    are opaque parameters `jd pd wd : Bytes → Option Raster`;
  * `decodeImage`, `isImageFile`, the entry loop of `CreateWebtoonStrip`
    (`processEntries`), the final compositing loop (`stackPixels`,
    `buildStrip`) and the error outcomes are translated line by line.
Go's `sort.Slice` with a by-name comparison is modelled by a by-name
insertion sort (any name-sorted permutation; `sort.Slice` is unstable, so
tie order among equal names is unspecified either way).
-/

namespace CbzToPng

/-- A byte buffer, as read from one archive entry. -/
abbrev Bytes := List Nat

/-- A decoded in-memory page: width, height, and the pixel grid.
`pixels x y` is the color value at column `x` of row `y` (rows counted from
the top, as in Go's image package). -/
structure Raster where
  width : Nat
  height : Nat
  pixels : Nat → Nat → Nat

/-- One archive entry: its name and the bytes reading it yields.
`readData = none` models the source's per-entry read failure: `file.Open()`
or `io.ReadAll(rc)` returning an error for that entry. -/
structure Entry where
  name : String
  readData : Option Bytes

/-- The failure outcomes of `CreateWebtoonStrip` in the source:
`zip.OpenReader` failing, a per-entry read failing (the `return nil, err`
branches inside the loop), and the no-valid-images return. -/
inductive StripError where
  | archiveOpenError : StripError
  | readError : String → StripError
  | noValidPagesError : StripError
deriving DecidableEq

/-- The scan of `filepath.Ext`: the suffix of the last path element that
starts at its final dot. Works on the reversed character list. -/
def extScan : List Char → List Char → Option (List Char)
  | [], _ => none
  | c :: rest, acc =>
    if c = '.' then some ('.' :: acc)
    else if c = '/' then none
    else extScan rest (c :: acc)

/-- `filepath.Ext` from the Go standard library as the source uses it:
the extension of the entry name, empty when there is no dot. -/
def fileExt (name : String) : String :=
  match extScan name.data.reverse [] with
  | some cs => String.mk cs
  | none => ""

/-- ASCII lowering of one character, as `strings.ToLower` acts on the ASCII
range (the recognized extensions are ASCII, so this is the only range the
candidate test can depend on). -/
def lowerChar (c : Char) : Char :=
  if 'A' ≤ c ∧ c ≤ 'Z' then Char.ofNat (c.toNat + 32) else c

/-- `strings.ToLower` restricted to the ASCII range. -/
def lowerString (s : String) : String := String.mk (s.data.map lowerChar)

/-- `isImageFile` from the source: the name's extension, lowered, is one of
the recognized raster extensions. -/
def isImageFile (filename : String) : Bool :=
  let ext := lowerString (fileExt filename)
  ext == ".jpg" || ext == ".jpeg" || ext == ".png" || ext == ".webp"

/-- `decodeImage` from the source: try the JPEG decoder, then the PNG
decoder, then the WebP decoder on the byte buffer; the first success wins,
paired with the matched format's name; `none` is the source's
"unsupported image format" error. The source's initial `io.ReadAll` is over
an in-memory `bytes.Reader` and cannot fail, so the embedding takes the byte
buffer directly. -/
def decodeImage (jd pd wd : Bytes → Option Raster) (data : Bytes) :
    Option (Raster × String) :=
  match jd data with
  | some img => some (img, "jpeg")
  | none =>
    match pd data with
    | some img => some (img, "png")
    | none =>
      match wd data with
      | some img => some (img, "webp")
      | none => none

/-- Lexicographic strict order on character lists by code point. Go compares
strings byte-wise over their UTF-8 bytes, and UTF-8 byte order agrees with
code point order, so this is the order `reader.File[i].Name <
reader.File[j].Name` uses. -/
def charListLt : List Char → List Char → Bool
  | [], [] => false
  | [], _ :: _ => true
  | _ :: _, [] => false
  | a :: as, b :: bs =>
    if a.toNat < b.toNat then true
    else if b.toNat < a.toNat then false
    else charListLt as bs

/-- Go's `<` on entry-name strings. -/
def nameLt (a b : String) : Bool := charListLt a.data b.data

/-- The non-strict companion of `nameLt`: the order the sorted entry list is
pairwise arranged by. -/
def nameLe (a b : String) : Bool := !(nameLt b a)

/-- The by-name order `sort.Slice` leaves the entry list sorted in. -/
def entryLe (a b : Entry) : Prop := nameLe a.name b.name = true

instance : DecidableRel entryLe := fun a b =>
  inferInstanceAs (Decidable (nameLe a.name b.name = true))

theorem charListLt_irrefl : ∀ l : List Char, charListLt l l = false
  | [] => rfl
  | a :: as => by simp [charListLt, charListLt_irrefl as]

theorem charListLt_cons_iff {a b : Char} {as bs : List Char} :
    charListLt (a :: as) (b :: bs) = true ↔
      a.toNat < b.toNat ∨ (a.toNat = b.toNat ∧ charListLt as bs = true) := by
  simp only [charListLt]
  by_cases h1 : a.toNat < b.toNat
  · simp [h1]
  · by_cases h2 : b.toNat < a.toNat
    · simp [h1, h2]; omega
    · have heq : a.toNat = b.toNat := by omega
      simp [h1, h2, heq]

theorem charListLt_trans : ∀ {l1 l2 l3 : List Char},
    charListLt l1 l2 = true → charListLt l2 l3 = true → charListLt l1 l3 = true := by
  intro l1
  induction l1 with
  | nil =>
    intro l2 l3 h1 h2
    cases l2 with
    | nil => exact absurd h1 (by simp [charListLt])
    | cons b bs =>
      cases l3 with
      | nil => exact absurd h2 (by simp [charListLt])
      | cons c cs => simp [charListLt]
  | cons a as ih =>
    intro l2 l3 h1 h2
    cases l2 with
    | nil => exact absurd h1 (by simp [charListLt])
    | cons b bs =>
      cases l3 with
      | nil => exact absurd h2 (by simp [charListLt])
      | cons c cs =>
        rw [charListLt_cons_iff] at h1 h2 ⊢
        rcases h1 with h1 | ⟨h1e, h1r⟩
        · rcases h2 with h2 | ⟨h2e, h2r⟩
          · exact Or.inl (Nat.lt_trans h1 h2)
          · exact Or.inl (by omega)
        · rcases h2 with h2 | ⟨h2e, h2r⟩
          · exact Or.inl (by omega)
          · exact Or.inr ⟨by omega, ih h1r h2r⟩

theorem char_toNat_inj {a b : Char} (h : a.toNat = b.toNat) : a = b := by
  have hb := Char.ofNat_toNat a
  rw [h, Char.ofNat_toNat] at hb
  exact hb.symm

theorem charListLt_eq_of_not_lt : ∀ {l1 l2 : List Char},
    charListLt l1 l2 = false → charListLt l2 l1 = false → l1 = l2 := by
  intro l1
  induction l1 with
  | nil =>
    intro l2 h1 _
    cases l2 with
    | nil => rfl
    | cons b bs => simp [charListLt] at h1
  | cons a as ih =>
    intro l2 h1 h2
    cases l2 with
    | nil => simp [charListLt] at h2
    | cons b bs =>
      have h1' : ¬ (a.toNat < b.toNat ∨ (a.toNat = b.toNat ∧ charListLt as bs = true)) := by
        rw [← charListLt_cons_iff]; simp [h1]
      have h2' : ¬ (b.toNat < a.toNat ∨ (b.toNat = a.toNat ∧ charListLt bs as = true)) := by
        rw [← charListLt_cons_iff]; simp [h2]
      push_neg at h1' h2'
      have heq : a.toNat = b.toNat := by omega
      have hrec : as = bs := by
        apply ih
        · exact Bool.not_eq_true _ ▸ (h1'.2 heq)
        · exact Bool.not_eq_true _ ▸ (h2'.2 heq.symm)
      rw [char_toNat_inj heq, hrec]

theorem entryLe_iff {a b : Entry} :
    entryLe a b ↔ charListLt b.name.data a.name.data = false := by
  simp [entryLe, nameLe, nameLt]

instance : IsTrans Entry entryLe := by
  constructor
  intro a b c h1 h2
  rw [entryLe_iff] at h1 h2 ⊢
  by_contra hca
  rw [Bool.not_eq_false] at hca
  by_cases hbc : charListLt b.name.data c.name.data = true
  · exact absurd (charListLt_trans hbc hca) (by simp [h1])
  · rw [Bool.not_eq_true] at hbc
    have hcb : c.name.data = b.name.data := charListLt_eq_of_not_lt h2 hbc
    rw [hcb] at hca
    exact absurd hca (by simp [h1])

instance : IsTotal Entry entryLe := by
  constructor
  intro a b
  rw [entryLe_iff, entryLe_iff]
  by_cases h : charListLt b.name.data a.name.data = true
  · by_cases h2 : charListLt a.name.data b.name.data = true
    · exact absurd (charListLt_trans h h2) (by simp [charListLt_irrefl])
    · exact Or.inr (Bool.not_eq_true _ ▸ h2)
  · exact Or.inl (Bool.not_eq_true _ ▸ h)

/-- The source's `sort.Slice(reader.File, by name)`: the entry list in
ascending lexicographic order of names. -/
def sortEntries (files : List Entry) : List Entry :=
  files.insertionSort entryLe

/-- The per-entry loop of `CreateWebtoonStrip`. For each file in order:
a non-candidate name is skipped; a candidate whose bytes cannot be read
aborts with a read error (the source's `return nil, err`); a decode failure
skips the entry (`continue`); a zero `commonWidth` records the raster's
width; a width mismatch skips the entry (`continue`); otherwise the page is
appended and `totalHeight` grows. The source's `images` slice holds only the
rasters; the entry's name is carried alongside purely so theorems can name
the entry each accepted page came from (it never affects any result the
source computes). -/
def processEntries (jd pd wd : Bytes → Option Raster) :
    List Entry → List (String × Raster) → Nat → Nat →
    Except StripError (List (String × Raster) × Nat × Nat)
  | [], images, totalHeight, commonWidth => .ok (images, totalHeight, commonWidth)
  | e :: rest, images, totalHeight, commonWidth =>
    if isImageFile e.name then
      match e.readData with
      | none => .error (.readError e.name)
      | some data =>
        match decodeImage jd pd wd data with
        | none => processEntries jd pd wd rest images totalHeight commonWidth
        | some (img, _fmt) =>
          if commonWidth = 0 then
            processEntries jd pd wd rest (images ++ [(e.name, img)])
              (totalHeight + img.height) img.width
          else if img.width ≠ commonWidth then
            processEntries jd pd wd rest images totalHeight commonWidth
          else
            processEntries jd pd wd rest (images ++ [(e.name, img)])
              (totalHeight + img.height) commonWidth
    else
      processEntries jd pd wd rest images totalHeight commonWidth

/-- The pixel a stack of rasters drawn top-to-bottom shows at `(x, y)`:
the band row `y` falls in supplies it; zero (Go's zero RGBA value, what
`image.NewRGBA` initializes and `draw.Draw` leaves where the band's raster
is narrower) elsewhere. This is the source's final loop of
`draw.Draw(finalImage, Rect(0, currentY, commonWidth, currentY+Dy), img,
Point{}, draw.Src)` calls read back pointwise. -/
def stackPixels : List Raster → Nat → Nat → Nat
  | [], _, _ => 0
  | img :: rest, x, y =>
    if y < img.height then
      (if x < img.width then img.pixels x y else 0)
    else
      stackPixels rest x (y - img.height)

/-- The source's `image.NewRGBA(image.Rect(0, 0, commonWidth, totalHeight))`
raster after the drawing loop. -/
def buildStrip (images : List Raster) (commonWidth totalHeight : Nat) : Raster :=
  { width := commonWidth
    height := totalHeight
    pixels := fun x y =>
      if x < commonWidth ∧ y < totalHeight then stackPixels images x y else 0 }

/-- Everything `CreateWebtoonStrip` does after sorting: run the entry loop,
fail with the no-valid-images error when nothing was accepted, otherwise
composite the accepted pages. -/
def stripResult (jd pd wd : Bytes → Option Raster) (sortedFiles : List Entry) :
    Except StripError Raster :=
  match processEntries jd pd wd sortedFiles [] 0 0 with
  | .error e => .error e
  | .ok (images, totalHeight, commonWidth) =>
    if images.length = 0 then .error .noValidPagesError
    else .ok (buildStrip (images.map Prod.snd) commonWidth totalHeight)

/-- `CreateWebtoonStrip` from the source. The archive argument is `none`
when `zip.OpenReader` fails; otherwise it is the archive's entry list, which
is sorted by name and processed. -/
def CreateWebtoonStrip (jd pd wd : Bytes → Option Raster)
    (archive : Option (List Entry)) : Except StripError Raster :=
  match archive with
  | none => .error .archiveOpenError
  | some files => stripResult jd pd wd (sortEntries files)

/-- The candidate entries of a list that read and decode successfully, each
with its decoded raster, in list order — the pages the loop would consider
for acceptance, before the width check. -/
def decodedPages (jd pd wd : Bytes → Option Raster) (l : List Entry) :
    List (String × Raster) :=
  l.filterMap fun e =>
    if isImageFile e.name then
      match e.readData with
      | some data =>
        match decodeImage jd pd wd data with
        | some (img, _) => some (e.name, img)
        | none => none
      | none => none
    else none

/-- The vertical offset at which accepted page `k` starts in the strip:
the sum of the heights of the pages before it (the source's `currentY` when
page `k` is drawn). -/
def pageTop (ps : List (String × Raster)) (k : Nat) : Nat :=
  ((ps.take k).map (fun p => p.2.height)).sum


variable (jd pd wd : Bytes → Option Raster)

theorem proc_nil (acc th cw) :
    processEntries jd pd wd [] acc th cw = .ok (acc, th, cw) := rfl

theorem proc_cons_not_image {e : Entry} (h : isImageFile e.name = false)
    (rest acc th cw) :
    processEntries jd pd wd (e :: rest) acc th cw =
      processEntries jd pd wd rest acc th cw := by
  simp [processEntries, h]

theorem proc_cons_read_fail {e : Entry} (h : isImageFile e.name = true)
    (hr : e.readData = none) (rest acc th cw) :
    processEntries jd pd wd (e :: rest) acc th cw =
      .error (.readError e.name) := by
  simp [processEntries, h, hr]

theorem proc_cons_decode_fail {e : Entry} {b : Bytes}
    (h : isImageFile e.name = true) (hr : e.readData = some b)
    (hd : decodeImage jd pd wd b = none) (rest acc th cw) :
    processEntries jd pd wd (e :: rest) acc th cw =
      processEntries jd pd wd rest acc th cw := by
  simp [processEntries, h, hr, hd]

theorem proc_cons_first {e : Entry} {b : Bytes} {img : Raster} {fmt : String}
    (h : isImageFile e.name = true) (hr : e.readData = some b)
    (hd : decodeImage jd pd wd b = some (img, fmt)) (rest acc th) :
    processEntries jd pd wd (e :: rest) acc th 0 =
      processEntries jd pd wd rest (acc ++ [(e.name, img)])
        (th + img.height) img.width := by
  simp [processEntries, h, hr, hd]

theorem proc_cons_mismatch {e : Entry} {b : Bytes} {img : Raster} {fmt : String}
    {cw : Nat} (h : isImageFile e.name = true) (hr : e.readData = some b)
    (hd : decodeImage jd pd wd b = some (img, fmt)) (hcw : cw ≠ 0)
    (hw : img.width ≠ cw) (rest acc th) :
    processEntries jd pd wd (e :: rest) acc th cw =
      processEntries jd pd wd rest acc th cw := by
  simp [processEntries, h, hr, hd, hcw, hw]

theorem proc_cons_match {e : Entry} {b : Bytes} {img : Raster} {fmt : String}
    {cw : Nat} (h : isImageFile e.name = true) (hr : e.readData = some b)
    (hd : decodeImage jd pd wd b = some (img, fmt)) (hcw : cw ≠ 0)
    (hw : img.width = cw) (rest acc th) :
    processEntries jd pd wd (e :: rest) acc th cw =
      processEntries jd pd wd rest (acc ++ [(e.name, img)])
        (th + img.height) cw := by
  simp [processEntries, h, hr, hd, hcw, hw]

theorem proc_acc : ∀ (l : List Entry) (acc : List (String × Raster)) (th cw : Nat),
    processEntries jd pd wd l acc th cw =
      Except.map (fun r => (acc ++ r.1, th + r.2.1, r.2.2))
        (processEntries jd pd wd l [] 0 cw) := by
  intro l
  induction l with
  | nil => intro acc th cw; simp [processEntries, Except.map]
  | cons e rest ih =>
    intro acc th cw
    by_cases hi : isImageFile e.name = true
    · cases hrd : e.readData with
      | none =>
        simp only [proc_cons_read_fail jd pd wd hi hrd]
        rfl
      | some b =>
        cases hd : decodeImage jd pd wd b with
        | none =>
          simp only [proc_cons_decode_fail jd pd wd hi hrd hd]
          exact ih acc th cw
        | some p =>
          obtain ⟨img, fmt⟩ := p
          by_cases hcw : cw = 0
          · subst hcw
            simp only [proc_cons_first jd pd wd hi hrd hd]
            rw [ih (acc ++ [(e.name, img)]) (th + img.height) img.width,
              ih ([] ++ [(e.name, img)]) (0 + img.height) img.width]
            cases processEntries jd pd wd rest [] 0 img.width with
            | error err => rfl
            | ok r => simp [Except.map, Nat.add_assoc]
          · by_cases hw : img.width = cw
            · simp only [proc_cons_match jd pd wd hi hrd hd hcw hw]
              rw [ih (acc ++ [(e.name, img)]) (th + img.height) cw,
                ih ([] ++ [(e.name, img)]) (0 + img.height) cw]
              cases processEntries jd pd wd rest [] 0 cw with
              | error err => rfl
              | ok r => simp [Except.map, Nat.add_assoc]
            · simp only [proc_cons_mismatch jd pd wd hi hrd hd hcw hw]
              exact ih acc th cw
    · rw [Bool.not_eq_true] at hi
      simp only [proc_cons_not_image jd pd wd hi]
      exact ih acc th cw

theorem proc_height : ∀ (l : List Entry) (cw : Nat)
    (ps : List (String × Raster)) (th cw' : Nat),
    processEntries jd pd wd l [] 0 cw = .ok (ps, th, cw') →
    th = (ps.map (fun p => p.2.height)).sum := by
  intro l
  induction l with
  | nil =>
    intro cw ps th cw' h
    simp only [proc_nil, Except.ok.injEq, Prod.mk.injEq] at h
    obtain ⟨h1, h2, _⟩ := h
    subst h1; subst h2; simp
  | cons e rest ih =>
    intro cw ps th cw' h
    by_cases hi : isImageFile e.name = true
    · cases hrd : e.readData with
      | none => rw [proc_cons_read_fail jd pd wd hi hrd] at h; exact absurd h (by simp)
      | some b =>
        cases hd : decodeImage jd pd wd b with
        | none =>
          rw [proc_cons_decode_fail jd pd wd hi hrd hd] at h
          exact ih cw ps th cw' h
        | some p =>
          obtain ⟨img, fmt⟩ := p
          by_cases hcw : cw = 0
          · subst hcw
            rw [proc_cons_first jd pd wd hi hrd hd, proc_acc] at h
            cases hrec : processEntries jd pd wd rest [] 0 img.width with
            | error err => rw [hrec] at h; exact absurd h (by simp [Except.map])
            | ok r =>
              obtain ⟨ps0, th0, cw0⟩ := r
              rw [hrec] at h
              simp only [Except.map, Except.ok.injEq, Prod.mk.injEq] at h
              obtain ⟨h1, h2, _⟩ := h
              subst h1; subst h2
              have := ih img.width ps0 th0 cw0 hrec
              simp [this]
          · by_cases hw : img.width = cw
            · rw [proc_cons_match jd pd wd hi hrd hd hcw hw, proc_acc] at h
              cases hrec : processEntries jd pd wd rest [] 0 cw with
              | error err => rw [hrec] at h; exact absurd h (by simp [Except.map])
              | ok r =>
                obtain ⟨ps0, th0, cw0⟩ := r
                rw [hrec] at h
                simp only [Except.map, Except.ok.injEq, Prod.mk.injEq] at h
                obtain ⟨h1, h2, _⟩ := h
                subst h1; subst h2
                have := ih cw ps0 th0 cw0 hrec
                simp [this]
            · rw [proc_cons_mismatch jd pd wd hi hrd hd hcw hw] at h
              exact ih cw ps th cw' h
    · rw [Bool.not_eq_true] at hi
      rw [proc_cons_not_image jd pd wd hi] at h
      exact ih cw ps th cw' h

theorem proc_names : ∀ (l : List Entry) (cw : Nat)
    (ps : List (String × Raster)) (th cw' : Nat),
    processEntries jd pd wd l [] 0 cw = .ok (ps, th, cw') →
    List.Sublist (ps.map Prod.fst) (l.map Entry.name) := by
  intro l
  induction l with
  | nil =>
    intro cw ps th cw' h
    simp only [proc_nil, Except.ok.injEq, Prod.mk.injEq] at h
    obtain ⟨h1, _, _⟩ := h
    subst h1; simp
  | cons e rest ih =>
    intro cw ps th cw' h
    by_cases hi : isImageFile e.name = true
    · cases hrd : e.readData with
      | none => rw [proc_cons_read_fail jd pd wd hi hrd] at h; exact absurd h (by simp)
      | some b =>
        cases hd : decodeImage jd pd wd b with
        | none =>
          rw [proc_cons_decode_fail jd pd wd hi hrd hd] at h
          exact (ih cw ps th cw' h).cons e.name
        | some p =>
          obtain ⟨img, fmt⟩ := p
          by_cases hcw : cw = 0
          · subst hcw
            rw [proc_cons_first jd pd wd hi hrd hd, proc_acc] at h
            cases hrec : processEntries jd pd wd rest [] 0 img.width with
            | error err => rw [hrec] at h; exact absurd h (by simp [Except.map])
            | ok r =>
              obtain ⟨ps0, th0, cw0⟩ := r
              rw [hrec] at h
              simp only [Except.map, Except.ok.injEq, Prod.mk.injEq] at h
              obtain ⟨h1, _, _⟩ := h
              subst h1
              simpa using (ih img.width ps0 th0 cw0 hrec).cons₂ e.name
          · by_cases hw : img.width = cw
            · rw [proc_cons_match jd pd wd hi hrd hd hcw hw, proc_acc] at h
              cases hrec : processEntries jd pd wd rest [] 0 cw with
              | error err => rw [hrec] at h; exact absurd h (by simp [Except.map])
              | ok r =>
                obtain ⟨ps0, th0, cw0⟩ := r
                rw [hrec] at h
                simp only [Except.map, Except.ok.injEq, Prod.mk.injEq] at h
                obtain ⟨h1, _, _⟩ := h
                subst h1
                simpa using (ih cw ps0 th0 cw0 hrec).cons₂ e.name
            · rw [proc_cons_mismatch jd pd wd hi hrd hd hcw hw] at h
              exact (ih cw ps th cw' h).cons e.name
    · rw [Bool.not_eq_true] at hi
      rw [proc_cons_not_image jd pd wd hi] at h
      exact (ih cw ps th cw' h).cons e.name

theorem proc_ok_of_readable : ∀ (l : List Entry),
    (∀ e ∈ l, isImageFile e.name = true → e.readData ≠ none) →
    ∀ (acc : List (String × Raster)) (th cw : Nat),
    ∃ ps th' cw', processEntries jd pd wd l acc th cw = .ok (ps, th', cw') := by
  intro l
  induction l with
  | nil => intro _ acc th cw; exact ⟨acc, th, cw, rfl⟩
  | cons e rest ih =>
    intro hr acc th cw
    have hrest : ∀ e' ∈ rest, isImageFile e'.name = true → e'.readData ≠ none :=
      fun e' he' => hr e' (List.mem_cons_of_mem e he')
    by_cases hi : isImageFile e.name = true
    · cases hrd : e.readData with
      | none => exact absurd hrd (hr e (List.mem_cons_self e rest) hi)
      | some b =>
        cases hd : decodeImage jd pd wd b with
        | none =>
          rw [proc_cons_decode_fail jd pd wd hi hrd hd]
          exact ih hrest acc th cw
        | some p =>
          obtain ⟨img, fmt⟩ := p
          by_cases hcw : cw = 0
          · subst hcw
            rw [proc_cons_first jd pd wd hi hrd hd]
            exact ih hrest _ _ _
          · by_cases hw : img.width = cw
            · rw [proc_cons_match jd pd wd hi hrd hd hcw hw]
              exact ih hrest _ _ _
            · rw [proc_cons_mismatch jd pd wd hi hrd hd hcw hw]
              exact ih hrest acc th cw
    · rw [Bool.not_eq_true] at hi
      rw [proc_cons_not_image jd pd wd hi]
      exact ih hrest acc th cw

theorem decodedPages_nil : decodedPages jd pd wd [] = [] := rfl

theorem proc_uniform_width (W : Nat) : ∀ (l : List Entry),
    (∀ e ∈ l, isImageFile e.name = true → e.readData ≠ none) →
    (∀ p ∈ decodedPages jd pd wd l, (Prod.snd p).width = W) →
    ∀ (acc : List (String × Raster)) (th cw : Nat), (cw = 0 ∨ cw = W) →
    processEntries jd pd wd l acc th cw =
      .ok (acc ++ decodedPages jd pd wd l,
           th + ((decodedPages jd pd wd l).map (fun p => p.2.height)).sum,
           if (decodedPages jd pd wd l).length = 0 then cw else W) := by
  intro l
  induction l with
  | nil => intro _ _ acc th cw _; simp [proc_nil, decodedPages]
  | cons e rest ih =>
    intro hr hW acc th cw hcw
    have hrest : ∀ e' ∈ rest, isImageFile e'.name = true → e'.readData ≠ none :=
      fun e' he' => hr e' (List.mem_cons_of_mem e he')
    by_cases hi : isImageFile e.name = true
    · cases hrd : e.readData with
      | none => exact absurd hrd (hr e (List.mem_cons_self e rest) hi)
      | some b =>
        cases hd : decodeImage jd pd wd b with
        | none =>
          have hdec : decodedPages jd pd wd (e :: rest) = decodedPages jd pd wd rest := by
            simp [decodedPages, List.filterMap_cons, hi, hrd, hd]
          rw [proc_cons_decode_fail jd pd wd hi hrd hd, hdec]
          exact ih hrest (hdec ▸ hW) acc th cw hcw
        | some p =>
          obtain ⟨img, fmt⟩ := p
          have hdec : decodedPages jd pd wd (e :: rest) =
              (e.name, img) :: decodedPages jd pd wd rest := by
            simp [decodedPages, List.filterMap_cons, hi, hrd, hd]
          have hWrest : ∀ p ∈ decodedPages jd pd wd rest, (Prod.snd p).width = W := by
            intro p hp
            exact hW p (by rw [hdec]; exact List.mem_cons_of_mem _ hp)
          have himgW : img.width = W := by
            have := hW (e.name, img) (by rw [hdec]; exact List.mem_cons_self _ _)
            simpa using this
          by_cases hcw0 : cw = 0
          · subst hcw0
            rw [proc_cons_first jd pd wd hi hrd hd,
              ih hrest hWrest (acc ++ [(e.name, img)]) (th + img.height) img.width
                (Or.inr himgW)]
            rw [hdec]
            simp [himgW, Nat.add_assoc]
          · have hcwW : cw = W := hcw.resolve_left hcw0
            subst hcwW
            have hw : img.width = cw := himgW
            rw [proc_cons_match jd pd wd hi hrd hd hcw0 hw,
              ih hrest hWrest (acc ++ [(e.name, img)]) (th + img.height) cw
                (Or.inr rfl)]
            rw [hdec]
            simp [himgW, Nat.add_assoc]
    · rw [Bool.not_eq_true] at hi
      have hdec : decodedPages jd pd wd (e :: rest) = decodedPages jd pd wd rest := by
        simp [decodedPages, List.filterMap_cons, hi]
      rw [proc_cons_not_image jd pd wd hi, hdec]
      exact ih hrest (hdec ▸ hW) acc th cw hcw

/-- An entry the loop passes over without changing its state: a
non-candidate name, or a candidate whose bytes read but fail to decode. -/
def skippedEntry (e : Entry) : Prop :=
  isImageFile e.name = false ∨
    ∃ b, e.readData = some b ∧ decodeImage jd pd wd b = none

theorem proc_cons_skipped {e : Entry} (h : skippedEntry jd pd wd e)
    (rest acc th cw) :
    processEntries jd pd wd (e :: rest) acc th cw =
      processEntries jd pd wd rest acc th cw := by
  rcases h with h | ⟨b, hrd, hd⟩
  · exact proc_cons_not_image jd pd wd h rest acc th cw
  · by_cases hi : isImageFile e.name = true
    · exact proc_cons_decode_fail jd pd wd hi hrd hd rest acc th cw
    · rw [Bool.not_eq_true] at hi
      exact proc_cons_not_image jd pd wd hi rest acc th cw

theorem proc_skipped_front : ∀ (l : List Entry),
    (∀ e ∈ l, skippedEntry jd pd wd e) →
    ∀ (rest : List Entry) (acc : List (String × Raster)) (th cw : Nat),
    processEntries jd pd wd (l ++ rest) acc th cw =
      processEntries jd pd wd rest acc th cw := by
  intro l
  induction l with
  | nil => intro _ rest acc th cw; rfl
  | cons e l' ih =>
    intro hsk rest acc th cw
    rw [List.cons_append,
      proc_cons_skipped jd pd wd (hsk e (List.mem_cons_self e l')) (l' ++ rest) acc th cw]
    exact ih (fun e' he' => hsk e' (List.mem_cons_of_mem e he')) rest acc th cw

theorem proc_cons_congr (e : Entry) {t1 t2 : List Entry}
    (h : ∀ acc th cw, processEntries jd pd wd t1 acc th cw =
      processEntries jd pd wd t2 acc th cw) (acc th cw) :
    processEntries jd pd wd (e :: t1) acc th cw =
      processEntries jd pd wd (e :: t2) acc th cw := by
  by_cases hi : isImageFile e.name = true
  · cases hrd : e.readData with
    | none =>
      rw [proc_cons_read_fail jd pd wd hi hrd, proc_cons_read_fail jd pd wd hi hrd]
    | some b =>
      cases hd : decodeImage jd pd wd b with
      | none =>
        rw [proc_cons_decode_fail jd pd wd hi hrd hd,
          proc_cons_decode_fail jd pd wd hi hrd hd, h]
      | some p =>
        obtain ⟨img, fmt⟩ := p
        by_cases hcw : cw = 0
        · subst hcw
          rw [proc_cons_first jd pd wd hi hrd hd, proc_cons_first jd pd wd hi hrd hd, h]
        · by_cases hw : img.width = cw
          · rw [proc_cons_match jd pd wd hi hrd hd hcw hw,
              proc_cons_match jd pd wd hi hrd hd hcw hw, h]
          · rw [proc_cons_mismatch jd pd wd hi hrd hd hcw hw,
              proc_cons_mismatch jd pd wd hi hrd hd hcw hw, h]
  · rw [Bool.not_eq_true] at hi
    rw [proc_cons_not_image jd pd wd hi, proc_cons_not_image jd pd wd hi, h]

theorem proc_drop_skipped_mid {e : Entry} (hsk : skippedEntry jd pd wd e) :
    ∀ (l1 l2 : List Entry) (acc : List (String × Raster)) (th cw : Nat),
    processEntries jd pd wd (l1 ++ e :: l2) acc th cw =
      processEntries jd pd wd (l1 ++ l2) acc th cw := by
  intro l1
  induction l1 with
  | nil =>
    intro l2 acc th cw
    exact proc_cons_skipped jd pd wd hsk l2 acc th cw
  | cons f l1' ih =>
    intro l2 acc th cw
    rw [List.cons_append, List.cons_append]
    exact proc_cons_congr jd pd wd f (fun a t c => ih l2 a t c) acc th cw

theorem proc_all_mismatch : ∀ (l : List Entry) (cw : Nat), cw ≠ 0 →
    (∀ e ∈ l, isImageFile e.name = true → e.readData ≠ none) →
    (∀ p ∈ decodedPages jd pd wd l, (Prod.snd p).width ≠ cw) →
    ∀ (acc : List (String × Raster)) (th : Nat),
    processEntries jd pd wd l acc th cw = .ok (acc, th, cw) := by
  intro l
  induction l with
  | nil => intro cw _ _ _ acc th; rfl
  | cons e rest ih =>
    intro cw hcw hr hW acc th
    have hrest : ∀ e' ∈ rest, isImageFile e'.name = true → e'.readData ≠ none :=
      fun e' he' => hr e' (List.mem_cons_of_mem e he')
    by_cases hi : isImageFile e.name = true
    · cases hrd : e.readData with
      | none => exact absurd hrd (hr e (List.mem_cons_self e rest) hi)
      | some b =>
        cases hd : decodeImage jd pd wd b with
        | none =>
          have hdec : decodedPages jd pd wd (e :: rest) = decodedPages jd pd wd rest := by
            simp [decodedPages, List.filterMap_cons, hi, hrd, hd]
          rw [proc_cons_decode_fail jd pd wd hi hrd hd]
          exact ih cw hcw hrest (hdec ▸ hW) acc th
        | some p =>
          obtain ⟨img, fmt⟩ := p
          have hdec : decodedPages jd pd wd (e :: rest) =
              (e.name, img) :: decodedPages jd pd wd rest := by
            simp [decodedPages, List.filterMap_cons, hi, hrd, hd]
          have hw : img.width ≠ cw := by
            have := hW (e.name, img) (by rw [hdec]; exact List.mem_cons_self _ _)
            simpa using this
          rw [proc_cons_mismatch jd pd wd hi hrd hd hcw hw]
          exact ih cw hcw hrest
            (fun p hp => hW p (by rw [hdec]; exact List.mem_cons_of_mem _ hp)) acc th
    · rw [Bool.not_eq_true] at hi
      have hdec : decodedPages jd pd wd (e :: rest) = decodedPages jd pd wd rest := by
        simp [decodedPages, List.filterMap_cons, hi]
      rw [proc_cons_not_image jd pd wd hi]
      exact ih cw hcw hrest (hdec ▸ hW) acc th

theorem pageTop_zero (ps : List (String × Raster)) : pageTop ps 0 = 0 := rfl

theorem pageTop_cons_succ (p : String × Raster) (ps : List (String × Raster)) (k : Nat) :
    pageTop (p :: ps) (k + 1) = p.2.height + pageTop ps k := by
  simp [pageTop]

theorem pageTop_succ_of_lt : ∀ (ps : List (String × Raster)) (k : Nat) (hk : k < ps.length),
    pageTop ps (k + 1) = pageTop ps k + ps[k].2.height := by
  intro ps
  induction ps with
  | nil => intro k hk; simp at hk
  | cons p ps ih =>
    intro k hk
    cases k with
    | zero => simp [pageTop_cons_succ, pageTop]
    | succ k' =>
      have hk' : k' < ps.length := by simpa using hk
      rw [pageTop_cons_succ, pageTop_cons_succ, ih k' hk', List.getElem_cons_succ,
        Nat.add_assoc]

theorem pageTop_mono (ps : List (String × Raster)) {a b : Nat} (hab : a ≤ b) :
    pageTop ps a ≤ pageTop ps b := by
  have hb : b = a + (b - a) := by omega
  rw [hb]
  unfold pageTop
  rw [List.take_add, List.map_append, List.sum_append]
  exact Nat.le_add_right _ _

theorem pageTop_length (ps : List (String × Raster)) :
    pageTop ps ps.length = (ps.map (fun p => p.2.height)).sum := by
  simp [pageTop]

theorem pageTop_add_height_le (ps : List (String × Raster)) (k : Nat)
    (hk : k < ps.length) :
    pageTop ps k + ps[k].2.height ≤ (ps.map (fun p => p.2.height)).sum := by
  rw [← pageTop_succ_of_lt ps k hk, ← pageTop_length ps]
  exact pageTop_mono ps hk

theorem stackPixels_page : ∀ (ps : List (String × Raster)) (k : Nat) (hk : k < ps.length)
    (x r : Nat), r < ps[k].2.height → x < ps[k].2.width →
    stackPixels (ps.map Prod.snd) x (pageTop ps k + r) = ps[k].2.pixels x r := by
  intro ps
  induction ps with
  | nil => intro k hk; simp at hk
  | cons p ps ih =>
    intro k hk x r hr hx
    cases k with
    | zero =>
      rw [pageTop_zero, Nat.zero_add]
      simp only [List.getElem_cons_zero] at hr hx ⊢
      simp [stackPixels, hr, hx]
    | succ k' =>
      have hk' : k' < ps.length := by simpa using hk
      rw [pageTop_cons_succ]
      simp only [List.getElem_cons_succ] at hr hx ⊢
      simp only [List.map_cons, stackPixels]
      rw [Nat.add_assoc, if_neg (by omega), Nat.add_sub_cancel_left]
      exact ih k' hk' x r hr hx

/-! Concrete test fixtures: a tiny decoder table standing in for the three
library decoders, and archive entries over it, used by the witnesses. -/

/-- A 1×1 page of width 1. -/
def rA : Raster := ⟨1, 1, fun _ _ => 10⟩

/-- A second 1×1 page of width 1, distinct pixel value. -/
def rB : Raster := ⟨1, 1, fun _ _ => 20⟩

/-- A page of width 2 (mismatching width-1 pages). -/
def rC : Raster := ⟨2, 1, fun _ _ => 30⟩

/-- A degenerate page of width 0 and height 2. -/
def rZ : Raster := ⟨0, 2, fun _ _ => 40⟩

/-- A concrete stand-in for the JPEG library decoder: a fixed byte-pattern
table. -/
def jd0 : Bytes → Option Raster
  | [1] => some rA
  | [2] => some rB
  | [3] => some rC
  | [4] => some rZ
  | _ => none

/-- A decoder that accepts nothing (stand-in for the PNG and WebP library
decoders in concrete runs). -/
def pdNone : Bytes → Option Raster := fun _ => none

def eA : Entry := ⟨"a.jpg", some [1]⟩
def eB : Entry := ⟨"b.jpg", some [2]⟩
def eC : Entry := ⟨"c.jpg", some [3]⟩
def eC1 : Entry := ⟨"c.jpg", some [2]⟩
def eZ4 : Entry := ⟨"a.jpg", some [4]⟩
def eBad : Entry := ⟨"b.jpg", some [9]⟩
def eTxt : Entry := ⟨"notes.txt", some []⟩

/-- C8: decodeImage tries the supported encodings in the fixed priority
order JPEG, PNG, WebP on the byte buffer alone (the entry's extension is
not an input); the first decoder that succeeds determines the result and
later decoders are not consulted; if all three fail the buffer yields a
decode failure. Determinism across runs is inherent: `decodeImage` is a
pure function of the buffer. -/
theorem decode_priority_order (jd pd wd : Bytes → Option Raster) (b : Bytes) :
    (∀ img, jd b = some img → decodeImage jd pd wd b = some (img, "jpeg")) ∧
    (jd b = none → ∀ img, pd b = some img → decodeImage jd pd wd b = some (img, "png")) ∧
    (jd b = none → pd b = none → ∀ img, wd b = some img →
      decodeImage jd pd wd b = some (img, "webp")) ∧
    (jd b = none → pd b = none → wd b = none → decodeImage jd pd wd b = none) := by
  refine ⟨?_, ?_, ?_, ?_⟩
  · intro img h; simp [decodeImage, h]
  · intro h1 img h; simp [decodeImage, h1, h]
  · intro h1 h2 img h; simp [decodeImage, h1, h2, h]
  · intro h1 h2 h3; simp [decodeImage, h1, h2, h3]

/-- C4: the compositor's state machine on one decoded raster. The
Uninitialized state is `commonWidth = 0` (the source's sentinel); the first
decoded raster establishes the fixed width, a matching subsequent raster is
appended (accumulator and total height grow), a mismatching subsequent
raster is discarded with the state unchanged. The supported decoders never
produce a zero-width raster, so `cw ≠ 0` in the Established branches. -/
theorem compositor_state_machine (jd pd wd : Bytes → Option Raster)
    (e : Entry) (rest : List Entry) (acc : List (String × Raster)) (th cw : Nat)
    (b : Bytes) (img : Raster) (fmt : String)
    (himg : isImageFile e.name = true) (hread : e.readData = some b)
    (hdec : decodeImage jd pd wd b = some (img, fmt)) :
    (cw = 0 → processEntries jd pd wd (e :: rest) acc th cw =
      processEntries jd pd wd rest (acc ++ [(e.name, img)]) (th + img.height) img.width) ∧
    (cw ≠ 0 → img.width = cw → processEntries jd pd wd (e :: rest) acc th cw =
      processEntries jd pd wd rest (acc ++ [(e.name, img)]) (th + img.height) cw) ∧
    (cw ≠ 0 → img.width ≠ cw → processEntries jd pd wd (e :: rest) acc th cw =
      processEntries jd pd wd rest acc th cw) := by
  refine ⟨fun hcw => ?_, fun hcw hw => ?_, fun hcw hw => ?_⟩
  · subst hcw; exact proc_cons_first jd pd wd himg hread hdec rest acc th
  · exact proc_cons_match jd pd wd himg hread hdec hcw hw rest acc th
  · exact proc_cons_mismatch jd pd wd himg hread hdec hcw hw rest acc th

/-- Witness for C4: the three transitions at concrete inputs. -/
theorem compositor_state_machine_witness :
    (processEntries jd0 pdNone pdNone [eA] [] 0 0 =
      processEntries jd0 pdNone pdNone [] [("a.jpg", rA)] (0 + rA.height) rA.width) ∧
    (processEntries jd0 pdNone pdNone [eA] [] 0 1 =
      processEntries jd0 pdNone pdNone [] [("a.jpg", rA)] (0 + rA.height) 1) ∧
    (processEntries jd0 pdNone pdNone [eA] [] 0 2 =
      processEntries jd0 pdNone pdNone [] [] 0 2) :=
  ⟨(compositor_state_machine jd0 pdNone pdNone eA [] [] 0 0 [1] rA "jpeg"
      rfl rfl rfl).1 rfl,
   (compositor_state_machine jd0 pdNone pdNone eA [] [] 0 1 [1] rA "jpeg"
      rfl rfl rfl).2.1 (by decide) rfl,
   (compositor_state_machine jd0 pdNone pdNone eA [] [] 0 2 [1] rA "jpeg"
      rfl rfl rfl).2.2 (by decide) (by decide)⟩

/-- Counterexample for C3: an archive whose single candidate entry fails to
read makes CreateWebtoonStrip return a per-entry read error, an outcome
distinct from ArchiveOpenError and NoValidPagesError — so not every
per-entry condition is absorbed. -/
theorem read_failure_is_fatal :
    CreateWebtoonStrip jd0 pdNone pdNone (some [⟨"p1.jpg", none⟩]) =
      .error (.readError "p1.jpg") ∧
    (StripError.readError "p1.jpg" ≠ .archiveOpenError ∧
      StripError.readError "p1.jpg" ≠ .noValidPagesError) :=
  ⟨rfl, by decide, by decide⟩

/-- C3 as amended: when every candidate entry's bytes can be read, the
conversion never fails except with NoValidPagesError — decode failures and
width mismatches are absorbed internally. (Read failures, however, are
fatal, and the encode step lives outside CreateWebtoonStrip.) -/
theorem per_entry_conditions_absorbed (jd pd wd : Bytes → Option Raster)
    (files : List Entry)
    (hr : ∀ e ∈ files, isImageFile e.name = true → e.readData ≠ none) :
    (∃ strip, CreateWebtoonStrip jd pd wd (some files) = .ok strip) ∨
    CreateWebtoonStrip jd pd wd (some files) = .error .noValidPagesError := by
  have hperm := List.perm_insertionSort entryLe files
  have hr' : ∀ e ∈ sortEntries files, isImageFile e.name = true → e.readData ≠ none :=
    fun e he => hr e (hperm.mem_iff.mp he)
  obtain ⟨ps, th, cw, hok⟩ := proc_ok_of_readable jd pd wd (sortEntries files) hr' [] 0 0
  simp only [CreateWebtoonStrip, stripResult]
  rw [hok]
  by_cases hlen : ps.length = 0
  · right; simp [hlen]
  · left; exact ⟨buildStrip (ps.map Prod.snd) cw th, by simp [hlen]⟩

/-- Witness for the amended C3 at a concrete archive. -/
theorem per_entry_conditions_absorbed_witness :
    (∃ strip, CreateWebtoonStrip jd0 pdNone pdNone (some [eA]) = .ok strip) ∨
    CreateWebtoonStrip jd0 pdNone pdNone (some [eA]) = .error .noValidPagesError :=
  per_entry_conditions_absorbed jd0 pdNone pdNone [eA] (by decide)

/-- C6: the conversion fails with NoValidPagesError exactly when the entry
loop accepted zero pages. -/
theorem noValidPages_iff_none_accepted (jd pd wd : Bytes → Option Raster)
    (files : List Entry) (ps : List (String × Raster)) (th cw : Nat)
    (hps : processEntries jd pd wd (sortEntries files) [] 0 0 = .ok (ps, th, cw)) :
    (CreateWebtoonStrip jd pd wd (some files) = .error .noValidPagesError ↔ ps = []) := by
  simp only [CreateWebtoonStrip, stripResult]
  rw [hps]
  by_cases hlen : ps.length = 0
  · have hnil : ps = [] := List.length_eq_zero.mp hlen
    simp [hlen, hnil]
  · have hnil : ps ≠ [] := fun h => hlen (by simp [h])
    simp [hlen, hnil]

/-- Witness for C6: an archive with no candidate entry accepts zero pages
and fails with NoValidPagesError. -/
theorem noValidPages_iff_none_accepted_witness :
    (CreateWebtoonStrip jd0 pdNone pdNone (some [eTxt]) = .error .noValidPagesError ↔
      ([] : List (String × Raster)) = []) :=
  noValidPages_iff_none_accepted jd0 pdNone pdNone [eTxt] [] 0 0 rfl

/-- C1: for an archive whose candidate entries all read successfully, with
at least one entry decoding and all decoded pages sharing width W, the
conversion succeeds and the strip's width is W and its height is the exact
sum of the decoded pages' heights (every decoded page is accepted). -/
theorem uniform_width_strip (jd pd wd : Bytes → Option Raster)
    (files : List Entry) (W : Nat)
    (hr : ∀ e ∈ files, isImageFile e.name = true → e.readData ≠ none)
    (hW : ∀ p ∈ decodedPages jd pd wd files, (Prod.snd p).width = W)
    (hne : (decodedPages jd pd wd files).length ≠ 0) :
    ∃ strip, CreateWebtoonStrip jd pd wd (some files) = .ok strip ∧
      strip.width = W ∧
      strip.height = ((decodedPages jd pd wd files).map (fun p => p.2.height)).sum := by
  have hperm := List.perm_insertionSort entryLe files
  have hpermd : (decodedPages jd pd wd (sortEntries files)).Perm
      (decodedPages jd pd wd files) := by
    unfold decodedPages
    exact hperm.filterMap _
  have hr' : ∀ e ∈ sortEntries files, isImageFile e.name = true → e.readData ≠ none :=
    fun e he => hr e (hperm.mem_iff.mp he)
  have hW' : ∀ p ∈ decodedPages jd pd wd (sortEntries files), (Prod.snd p).width = W :=
    fun p hp => hW p (hpermd.mem_iff.mp hp)
  have hlen : (decodedPages jd pd wd (sortEntries files)).length ≠ 0 := by
    rw [hpermd.length_eq]; exact hne
  have hrun := proc_uniform_width jd pd wd W (sortEntries files) hr' hW' [] 0 0
    (Or.inl rfl)
  simp only [CreateWebtoonStrip, stripResult]
  rw [hrun]
  have hsum : ((decodedPages jd pd wd (sortEntries files)).map (fun p => p.2.height)).sum =
      ((decodedPages jd pd wd files).map (fun p => p.2.height)).sum :=
    (hpermd.map _).sum_eq
  refine ⟨buildStrip ((decodedPages jd pd wd (sortEntries files)).map Prod.snd) W
    (0 + ((decodedPages jd pd wd (sortEntries files)).map (fun p => p.2.height)).sum), ?_, rfl, ?_⟩
  · simp [hlen]
  · simpa [buildStrip] using hsum

/-- Witness for C1 at a concrete two-page archive of common width 1. -/
theorem uniform_width_strip_witness :
    ∃ strip, CreateWebtoonStrip jd0 pdNone pdNone (some [eB, eA]) = .ok strip ∧
      strip.width = 1 ∧
      strip.height =
        ((decodedPages jd0 pdNone pdNone [eB, eA]).map (fun p => p.2.height)).sum :=
  uniform_width_strip jd0 pdNone pdNone [eB, eA] 1 (by decide) (by decide) (by decide)

/-- C5: a candidate entry whose bytes read but fail to decode is skipped:
the conversion's result is the result of processing the same sorted entry
list with that entry removed. -/
theorem decode_failure_nonfatal (jd pd wd : Bytes → Option Raster)
    (files l1 l2 : List Entry) (e : Entry) (b : Bytes)
    (hsort : sortEntries files = l1 ++ e :: l2)
    (himg : isImageFile e.name = true) (hread : e.readData = some b)
    (hdec : decodeImage jd pd wd b = none) :
    CreateWebtoonStrip jd pd wd (some files) = stripResult jd pd wd (l1 ++ l2) := by
  simp only [CreateWebtoonStrip]
  rw [hsort]
  unfold stripResult
  rw [proc_drop_skipped_mid jd pd wd (Or.inr ⟨b, hread, hdec⟩) l1 l2 [] 0 0]

/-- Witness for C5: two valid width-1 pages around a corrupted entry yield
exactly the two valid pages, with no fatal error. -/
theorem decode_failure_nonfatal_witness :
    CreateWebtoonStrip jd0 pdNone pdNone (some [eC1, eA, eBad]) =
      stripResult jd0 pdNone pdNone ([eA] ++ [eC1]) ∧
    stripResult jd0 pdNone pdNone ([eA] ++ [eC1]) = .ok (buildStrip [rA, rB] 1 2) :=
  ⟨decode_failure_nonfatal jd0 pdNone pdNone [eC1, eA, eBad] [eA] [eC1] eBad [9]
      rfl rfl rfl rfl,
   rfl⟩

/-- Counterexample for C7: an archive whose second page's width differs from
the first accepted page's width succeeds with a one-page strip; it does not
yield NoValidPagesError. -/
theorem width_mismatch_not_noValidPages :
    CreateWebtoonStrip jd0 pdNone pdNone (some [eA, eC]) = .ok (buildStrip [rA] 1 1) ∧
    ¬ CreateWebtoonStrip jd0 pdNone pdNone (some [eA, eC]) =
        .error .noValidPagesError := by
  refine ⟨rfl, fun h => ?_⟩
  have h2 : (Except.ok (buildStrip [rA] 1 1) : Except StripError Raster) =
      .error .noValidPagesError := h
  exact Except.noConfusion h2

/-- C7 as amended: when the first decoded page (preceded only by skipped
entries) has nonzero width `img.width` and every later decoded page's width
differs from it, the conversion does not fail: it returns the strip holding
exactly that first page. Width mismatches alone can never produce
NoValidPagesError, because the width-establishing page itself is accepted. -/
theorem first_page_kept_on_mismatch (jd pd wd : Bytes → Option Raster)
    (files l1 l2 : List Entry) (e : Entry) (b : Bytes) (img : Raster) (fmt : String)
    (hsort : sortEntries files = l1 ++ e :: l2)
    (hl1 : ∀ e' ∈ l1, skippedEntry jd pd wd e')
    (himg : isImageFile e.name = true) (hread : e.readData = some b)
    (hdec : decodeImage jd pd wd b = some (img, fmt)) (hw0 : img.width ≠ 0)
    (hl2r : ∀ e' ∈ l2, isImageFile e'.name = true → e'.readData ≠ none)
    (hl2w : ∀ p ∈ decodedPages jd pd wd l2, (Prod.snd p).width ≠ img.width) :
    CreateWebtoonStrip jd pd wd (some files) =
      .ok (buildStrip [img] img.width img.height) := by
  simp only [CreateWebtoonStrip]
  rw [hsort]
  unfold stripResult
  rw [proc_skipped_front jd pd wd l1 hl1 (e :: l2) [] 0 0,
    proc_cons_first jd pd wd himg hread hdec l2 [] 0,
    proc_all_mismatch jd pd wd l2 img.width hw0 hl2r hl2w
      ([] ++ [(e.name, img)]) (0 + img.height)]
  simp

/-- Witness for the amended C7 at a concrete archive: page widths 1 then 2;
the strip keeps exactly the width-1 first page. -/
theorem first_page_kept_on_mismatch_witness :
    CreateWebtoonStrip jd0 pdNone pdNone (some [eA, eC]) =
      .ok (buildStrip [rA] rA.width rA.height) :=
  first_page_kept_on_mismatch jd0 pdNone pdNone [eA, eC] [] [eC] eA [1] rA "jpeg"
    rfl (by simp) rfl rfl rfl (by decide) (by decide) (by decide)

/-- C10: a first decoded page of width 0 is accepted (its height counts
toward the total) but does not establish the strip's fixed width — the
sentinel `commonWidth = 0` is left in the Uninitialized state — so the next
decoded page (of any width, here the first with nonzero width) is also
accepted and its width becomes the fixed width: the accepted pages then
carry two distinct widths, 0 and the eventual common width. -/
theorem zero_width_page_not_establishing (jd pd wd : Bytes → Option Raster)
    (l0 : List Entry) (e0 : Entry) (l1 : List Entry) (e1 : Entry) (rest : List Entry)
    (b0 b1 : Bytes) (img0 img1 : Raster) (f0 f1 : String)
    (hl0 : ∀ e' ∈ l0, skippedEntry jd pd wd e')
    (himg0 : isImageFile e0.name = true) (hr0 : e0.readData = some b0)
    (hd0 : decodeImage jd pd wd b0 = some (img0, f0)) (hw0 : img0.width = 0)
    (hl1 : ∀ e' ∈ l1, skippedEntry jd pd wd e')
    (himg1 : isImageFile e1.name = true) (hr1 : e1.readData = some b1)
    (hd1 : decodeImage jd pd wd b1 = some (img1, f1)) :
    processEntries jd pd wd (l0 ++ e0 :: (l1 ++ e1 :: rest)) [] 0 0 =
      processEntries jd pd wd rest [(e0.name, img0), (e1.name, img1)]
        (img0.height + img1.height) img1.width := by
  rw [proc_skipped_front jd pd wd l0 hl0 (e0 :: (l1 ++ e1 :: rest)) [] 0 0,
    proc_cons_first jd pd wd himg0 hr0 hd0 (l1 ++ e1 :: rest) [] 0, hw0,
    proc_skipped_front jd pd wd l1 hl1 (e1 :: rest) ([] ++ [(e0.name, img0)])
      (0 + img0.height) 0,
    proc_cons_first jd pd wd himg1 hr1 hd1 rest ([] ++ [(e0.name, img0)])
      (0 + img0.height)]
  simp [Nat.add_assoc]

/-- Witness for C10: width-0 page then width-1 page, both accepted, fixed
width 1. -/
theorem zero_width_page_not_establishing_witness :
    processEntries jd0 pdNone pdNone ([] ++ eZ4 :: ([] ++ eB :: [])) [] 0 0 =
      processEntries jd0 pdNone pdNone [] [("a.jpg", rZ), ("b.jpg", rB)]
        (rZ.height + rB.height) rB.width :=
  zero_width_page_not_establishing jd0 pdNone pdNone [] eZ4 [] eB [] [4] [2] rZ rB
    "jpeg" "jpeg" (by simp) rfl rfl rfl rfl (by simp) rfl rfl rfl


/-- C2: accepted pages appear in the strip in ascending lexicographic order
of their entry names. For a successful run whose accepted pages are `ps`:
if accepted page `i` is named strictly before accepted page `j`, then
`i < j`, page `i`'s row band `[pageTop ps i, pageTop ps i + height)` lies
strictly above page `j`'s band, and (for every accepted page) the strip
reproduces the page's rows top-to-bottom at its band. -/
theorem pages_in_name_order (jd pd wd : Bytes → Option Raster)
    (files : List Entry) (ps : List (String × Raster)) (th cw : Nat)
    (hps : processEntries jd pd wd (sortEntries files) [] 0 0 = .ok (ps, th, cw))
    (i j : Nat) (hi : i < ps.length) (hj : j < ps.length)
    (hlt : nameLt ps[i].1 ps[j].1 = true) :
    i < j ∧
    pageTop ps i + ps[i].2.height ≤ pageTop ps j ∧
    CreateWebtoonStrip jd pd wd (some files) =
      .ok (buildStrip (ps.map Prod.snd) cw th) ∧
    (∀ (k : Nat) (hk : k < ps.length) (x r : Nat),
      x < ps[k].2.width → x < cw → r < ps[k].2.height →
      (buildStrip (ps.map Prod.snd) cw th).pixels x (pageTop ps k + r) =
        ps[k].2.pixels x r) := by
  have hsub := proc_names jd pd wd (sortEntries files) 0 ps th cw hps
  have hsorted : List.Pairwise entryLe (sortEntries files) :=
    List.sorted_insertionSort entryLe files
  have hnames : List.Pairwise (fun a b : String => nameLe a b = true)
      ((sortEntries files).map Entry.name) := by
    rw [List.pairwise_map]
    exact hsorted
  have hpw : List.Pairwise (fun a b : String => nameLe a b = true)
      (ps.map Prod.fst) := hnames.sublist hsub
  have hij : i < j := by
    by_contra hle
    push_neg at hle
    rcases Nat.lt_or_ge j i with hji | hji
    · have := (List.pairwise_iff_getElem.mp hpw) j i
        (by simpa using hj) (by simpa using hi) hji
      simp only [List.getElem_map] at this
      rw [nameLe, Bool.not_eq_true'] at this
      rw [this] at hlt
      exact Bool.noConfusion hlt
    · have hji' : i = j := by omega
      subst hji'
      rw [nameLt, charListLt_irrefl] at hlt
      exact Bool.noConfusion hlt
  have hth : th = (ps.map (fun p => p.2.height)).sum :=
    proc_height jd pd wd (sortEntries files) 0 ps th cw hps
  have hlen0 : ps.length ≠ 0 := by omega
  refine ⟨hij, ?_, ?_, ?_⟩
  · rw [← pageTop_succ_of_lt ps i hi]
    exact pageTop_mono ps hij
  · simp only [CreateWebtoonStrip, stripResult]
    rw [hps]
    simp [hlen0]
  · intro k hk x r hx hxc hr
    have hy : pageTop ps k + r < th := by
      have h1 : pageTop ps k + r < pageTop ps k + ps[k].2.height := by omega
      have h2 := pageTop_add_height_le ps k hk
      omega
    show (if x < cw ∧ pageTop ps k + r < th then
        stackPixels (ps.map Prod.snd) x (pageTop ps k + r) else 0) = ps[k].2.pixels x r
    rw [if_pos ⟨hxc, hy⟩]
    exact stackPixels_page ps k hk x r hr hx


/-- The accepted pages of the concrete two-page archive `[eB, eA]`, in
sorted-name order. -/
def ps0 : List (String × Raster) := [("a.jpg", rA), ("b.jpg", rB)]

/-- Witness for C2: in the archive `[eB, eA]` (stored out of order), the
page named "a.jpg" occupies the band above the page named "b.jpg". -/
theorem pages_in_name_order_witness :
    0 < 1 ∧
    pageTop ps0 0 + ps0[0].2.height ≤ pageTop ps0 1 ∧
    CreateWebtoonStrip jd0 pdNone pdNone (some [eB, eA]) =
      .ok (buildStrip (ps0.map Prod.snd) 1 2) ∧
    (∀ (k : Nat) (hk : k < ps0.length) (x r : Nat),
      x < ps0[k].2.width → x < 1 → r < ps0[k].2.height →
      (buildStrip (ps0.map Prod.snd) 1 2).pixels x (pageTop ps0 k + r) =
        ps0[k].2.pixels x r) :=
  pages_in_name_order jd0 pdNone pdNone [eB, eA] ps0 2 1 rfl 0 1
    (by decide) (by decide) (by decide)

end CbzToPng
